import Mathlib

/-!
Shallow embedding of `src/tensor_format.ts` from tfjs-core: the tensor
pretty-printer `tensorToString` together with its helpers
(`computeMaxSizePerColumn`, `valToString`, `subTensorToString`,
`createComplexTuples`), and theorems about the rendered output.

Numeric values are modelled as exact finite decimals (`Dec`): every
JavaScript number (a binary floating point value) has an exact finite
decimal expansion, and on values given by short decimal literals the
observable `toString` / `toFixed` / `parseFloat` behaviour coincides with
exact decimal arithmetic, which is what is modelled here.
-/

set_option autoImplicit false

universe u v

/-- Finite decimal number `m / 10 ^ e`: the exact value of a numeric
literal flowing through the formatter. -/
structure Dec where
  m : Int
  e : Nat
deriving DecidableEq, Repr

/-- Digit character for `d < 10` (so `'0'` through `'9'`). -/
def digitChar (d : Nat) : Char := Char.ofNat (48 + d)

/-- Big-endian decimal digits of a positive number, with explicit fuel so
the recursion is structural and the kernel can evaluate it. -/
def natDigsCore : Nat → Nat → List Char
  | 0, _ => []
  | _ + 1, 0 => []
  | fuel + 1, n + 1 =>
      natDigsCore fuel ((n + 1) / 10) ++ [digitChar ((n + 1) % 10)]

/-- Decimal digit string of a natural number, as JavaScript renders it. -/
def natDigs (n : Nat) : List Char :=
  if n = 0 then ['0'] else natDigsCore (n + 1) n

/-- Decimal string of a natural number. -/
def natStr (n : Nat) : String := String.mk (natDigs n)

/-- Strip trailing decimal zeros of `m / 10 ^ e`, the way JavaScript's
`Number.prototype.toString` never prints redundant trailing zeros. -/
def normLoop : Int → Nat → Int × Nat
  | m, 0 => (m, 0)
  | m, e + 1 => if m % 10 = 0 then normLoop (m / 10) e else (m, e + 1)

/-- Digit string of the magnitude of `m`, left-padded with zeros to at
least `e + 1` digits so a decimal point can be placed `e` digits from the
right with a nonempty integer part. -/
def padOf (m : Int) (e : Nat) : List Char :=
  let digs := natDigs m.natAbs
  if digs.length ≤ e then List.replicate (e + 1 - digs.length) '0' ++ digs
  else digs

/-- Render the finite decimal `m / 10 ^ e` (assumed normalised: `e = 0` or
`m` not divisible by 10) the way JavaScript prints plain numbers: optional
sign, integer part, and a fractional part exactly when `e > 0`. -/
def decRender (m : Int) (e : Nat) : String :=
  let sign : List Char := if m < 0 then ['-'] else []
  if e = 0 then String.mk (sign ++ natDigs m.natAbs)
  else
    String.mk (sign ++ (padOf m e).take ((padOf m e).length - e)
      ++ '.' :: (padOf m e).drop ((padOf m e).length - e))

/-- JavaScript `Number.prototype.toString` on a finite decimal value. -/
def rawToString (v : Dec) : String :=
  let p := normLoop v.m v.e
  decRender p.1 p.2

/-- Rounding of `val.toFixed(FORMAT_NUM_SIG_DIGITS)` with
`FORMAT_NUM_SIG_DIGITS = 7`: `toFixed(7)` keeps 7 digits after the decimal
point, rounding half away from zero towards plus infinity on ties; the
result is the numerator of the rounded value over `10 ^ 7`. -/
def round7 (v : Dec) : Int :=
  if v.e ≤ 7 then v.m * (10 : Int) ^ (7 - v.e)
  else (2 * v.m + (10 : Int) ^ (v.e - 7)).fdiv (2 * (10 : Int) ^ (v.e - 7))

/-- The string `parseFloat(val.toFixed(FORMAT_NUM_SIG_DIGITS)).toString()`
computed by `valToString` for a single numeric component. -/
def numToStr (v : Dec) : String :=
  rawToString ⟨round7 v, 7⟩

/-- Modelled from the spec: `rightPad` from `util.ts` (imported by
`tensor_format.ts` but outside this source tree); section 4.3: right-pad
with trailing spaces up to the requested width, never truncating. -/
def rightPad (a : String) (size : Nat) : String :=
  if size ≤ a.length then a
  else a ++ String.mk (List.replicate (size - a.length) ' ')

/-- The `DataType` tags distinguished by the formatter; only `complex64`
is treated specially, every other dtype stores one value per element. -/
inductive DType where
  | float32
  | int32
  | bool
  | complex64
deriving DecidableEq, Repr

/-- String form of a dtype tag, used in the verbose header. -/
def dtypeToStr : DType → String
  | .float32 => "float32"
  | .int32 => "int32"
  | .bool => "bool"
  | .complex64 => "complex64"

/-- A value as fed to `valToString`: a plain number or a complex
`[real, imaginary]` pair. -/
inductive Val where
  | real (v : Dec)
  | cplx (re im : Dec)

/-- `valToString` from `tensor_format.ts`: round each component to
`toFixed(7)` precision, re-parse to drop trailing zeros, join complex
pairs as `"re + imj"`, then right-pad to the column width. -/
def valToString : Val → Nat → String
  | .cplx re im, pad => rightPad (numToStr re ++ " + " ++ numToStr im ++ "j") pad
  | .real v, pad => rightPad (numToStr v) pad

/-- `createComplexTuples` from `tensor_format.ts`: pair up interleaved
real/imaginary buffer slots. -/
def createComplexTuples : List Dec → List (Dec × Dec)
  | a :: b :: rest => (a, b) :: createComplexTuples rest
  | _ => []

/-- Modelled from the spec: `sizeFromShape` from `util.ts` (section 3: the
logical element count is the product of the dimensions). -/
def sizeFromShape (shape : List Nat) : Nat :=
  shape.foldl (fun a b => a * b) 1

/-- Modelled from the spec: `computeStrides` from `util.ts` (sections 2
and 4.1: row-major strides, entry `i` is the product of the sizes to the
right of dimension `i`).  The innermost stride 1 is implicit and omitted,
so the vector has `rank - 1` entries; this matches section 4.2, which
reads the final stride entry as the column count of one innermost row. -/
def computeStrides : List Nat → List Nat
  | [] => []
  | [_] => []
  | _ :: d :: rest => sizeFromShape (d :: rest) :: computeStrides (d :: rest)

/-- JavaScript `Array.prototype.join` with separator `sep`. -/
def joinSep (sep : String) : List String → String
  | [] => ""
  | [a] => a
  | a :: b :: rest => a ++ sep ++ joinSep sep (b :: rest)

/-- JavaScript `Array.prototype.map` when the callback also receives the
element index. -/
def mapWithIdx {α : Type u} {β : Type v} (f : Nat → α → β) : Nat → List α → List β
  | _, [] => []
  | i, a :: rest => f i a :: mapWithIdx f (i + 1) rest

/-- One row of the width scan in `computeMaxSizePerColumn`:
`padPerCol[j] = max(padPerCol[j], valToString(valuesOrTuples[offset+j], 0).length)`. -/
def colMaxRow (valuesOrTuples : List Val) (offset : Nat) (padPerCol : List Nat) : List Nat :=
  mapWithIdx
    (fun j p =>
      max p ((valToString (valuesOrTuples.getD (offset + j) (.real ⟨0, 0⟩)) 0).length))
    0 padPerCol

/-- `computeMaxSizePerColumn` from `tensor_format.ts`.  JavaScript reads
`strides[strides.length - 1]`; for rank below 2 the stride vector is
empty, that read gives `undefined`, and `new Array(undefined)` is a
single-slot array, hence the default 1 for the column count. -/
def computeMaxSizePerColumn (vals : List Dec) (shape : List Nat) (dtype : DType)
    (strides : List Nat) : List Nat :=
  let n := sizeFromShape shape
  let numCols := strides.getLastD 1
  let valuesOrTuples : List Val :=
    if dtype = .complex64 then (createComplexTuples vals).map (fun p => .cplx p.1 p.2)
    else vals.map .real
  if 1 < shape.length then
    (List.range (n / numCols)).foldl
      (fun pad row => colMaxRow valuesOrTuples (row * numCols) pad)
      (List.replicate numCols 0)
  else List.replicate numCols 0

/-- The separator appended to the last line of a rank `rank` block when it
is not the last sibling: JavaScript starts from `',\n'` and appends one
extra newline per rank beyond 2, giving a comma and `rank - 1` newlines. -/
def newLineSep (rank : Nat) : String :=
  "," ++ String.mk (List.replicate (rank - 1) '\n')

/-- Post-processing of the interior and last collected child lines of a
rank at least 2 block: interior lines get a leading space and the
separator, the last line a leading space, the closing `]` and `tail`. -/
def midLines (sep tail : String) : List String → List String
  | [] => []
  | [x] => [" " ++ x ++ "]" ++ tail]
  | x :: y :: rest => (" " ++ x ++ sep) :: midLines sep tail (y :: rest)

/-- Wrapping of all collected child lines of a rank at least 2 block: the
first line takes the opening `[` and the separator (JavaScript reads
`lines[0]` even when the collected list is empty, which stringifies the
`undefined` it finds there), and when more lines exist they are finished
by `midLines`.  With zero or one collected lines the closing mutation hits
the same index 0 again. -/
def wrapLines (sep tail : String) : List String → List String
  | [] => [" " ++ "[" ++ "undefined" ++ sep ++ "]" ++ tail]
  | [a] => [" " ++ "[" ++ a ++ sep ++ "]" ++ tail]
  | a :: b :: rest => ("[" ++ a ++ sep) :: midLines sep tail (b :: rest)

/-- `subTensorToString` from `tensor_format.ts`. -/
def subTensorToString (vals : List Dec) (shape : List Nat) (dtype : DType)
    (strides : List Nat) (padPerCol : List Nat) (isLast : Bool) : List String :=
  match shape with
  | [] =>
    if dtype = .complex64 then
      let t := (createComplexTuples vals).headD (⟨0, 0⟩, ⟨0, 0⟩)
      [valToString (.cplx t.1 t.2) 0]
    else [rawToString (vals.headD ⟨0, 0⟩)]
  | [size] =>
    let storagePerElement := if dtype = .complex64 then 2 else 1
    if 20 < size then
      let firstVals := vals.take (3 * storagePerElement)
      let lastVals := (vals.drop (size - 3 * storagePerElement)).take (3 * storagePerElement)
      let firstDisp : List Val :=
        if dtype = .complex64 then (createComplexTuples firstVals).map (fun p => .cplx p.1 p.2)
        else firstVals.map .real
      let lastDisp : List Val :=
        if dtype = .complex64 then (createComplexTuples lastVals).map (fun p => .cplx p.1 p.2)
        else lastVals.map .real
      ["[" ++ joinSep ", " (mapWithIdx (fun i x => valToString x (padPerCol.getD i 0)) 0 firstDisp)
        ++ ", ..., "
        ++ joinSep ", "
            (mapWithIdx (fun i x => valToString x (padPerCol.getD (size - 3 + i) 0)) 0 lastDisp)
        ++ "]"]
    else
      let displayVals : List Val :=
        if dtype = .complex64 then (createComplexTuples vals).map (fun p => .cplx p.1 p.2)
        else vals.map .real
      ["[" ++ joinSep ", " (mapWithIdx (fun i x => valToString x (padPerCol.getD i 0)) 0 displayVals)
        ++ "]"]
  | size :: d :: restShape =>
    let storagePerElement := if dtype = .complex64 then 2 else 1
    let subshape := d :: restShape
    let substrides := strides.tail
    let stride := strides.headD 0 * storagePerElement
    let lines :=
      if 20 < size then
        ((List.range 3).map (fun i =>
          subTensorToString ((vals.drop (i * stride)).take stride) subshape dtype
            substrides padPerCol false)).flatten
        ++ ["..."]
        ++ ((List.range 3).map (fun k =>
          subTensorToString ((vals.drop ((size - 3 + k) * stride)).take stride) subshape dtype
            substrides padPerCol (size - 3 + k == size - 1))).flatten
      else
        ((List.range size).map (fun i =>
          subTensorToString ((vals.drop (i * stride)).take stride) subshape dtype
            substrides padPerCol (i == size - 1))).flatten
    let sep := if restShape = [] then "," else ""
    wrapLines sep (if isLast then "" else newLineSep (restShape.length + 2)) lines

/-- `tensorToString` from `tensor_format.ts`: the top-level entry point. -/
def tensorToString (vals : List Dec) (shape : List Nat) (dtype : DType)
    (verbose : Bool) : String :=
  let strides := computeStrides shape
  let padPerCol := computeMaxSizePerColumn vals shape dtype strides
  let valsLines := subTensorToString vals shape dtype strides padPerCol true
  let lines := ["Tensor"]
  let lines :=
    if verbose then
      lines ++ ["  dtype: " ++ dtypeToStr dtype,
                "  rank: " ++ natStr shape.length,
                "  shape: [" ++ joinSep "," (shape.map natStr) ++ "]",
                "  values:"]
    else lines
  let lines := lines ++ [joinSep "\n" (valsLines.map (fun l => "    " ++ l))]
  joinSep "\n" lines

/-- Number of digits printed after the decimal point of a rendered
number: the maximal run of characters from the end up to a `'.'`, or 0
when no decimal point occurs. -/
def fracDigitCount (s : String) : Nat :=
  if '.' ∈ s.data then (s.data.reverse.takeWhile (fun c => c != '.')).length else 0

/-- The rendered number ends in a redundant zero of its fractional part:
it has a decimal point and its last character is `'0'`. -/
def trailingFracZero (s : String) : Prop :=
  '.' ∈ s.data ∧ s.data.getLastD ' ' = '0'

/-- Lower bound on the count of significant digits a rendered number
displays: its digit characters with leading and trailing zeros removed. -/
def sigDigitsOfStr (s : String) : Nat :=
  ((((s.data.filter (fun c => c.isDigit)).dropWhile (fun c => c == '0')).reverse).dropWhile
    (fun c => c == '0')).length

/-- Interleaved buffer of a complex `[2, 21]` tensor: both rows zero
except the imaginary part of logical element 7 of the second row (buffer
slot 57), which is 1000000. -/
def c5buf : List Dec := (List.range 84).map (fun i => if i = 57 then ⟨1000000, 0⟩ else ⟨0, 0⟩)

/-! Helper lemmas about the digit machinery. -/

theorem normLoop_le_and_mod (e : Nat) (m : Int) :
    (normLoop m e).2 ≤ e ∧ ((normLoop m e).2 = 0 ∨ (normLoop m e).1 % 10 ≠ 0) := by
  induction e generalizing m with
  | zero => exact ⟨le_rfl, Or.inl rfl⟩
  | succ e ih =>
    by_cases h : m % 10 = 0
    · simp only [normLoop, if_pos h]
      exact ⟨(ih (m / 10)).1.trans (Nat.le_succ e), (ih (m / 10)).2⟩
    · simp only [normLoop, if_neg h]
      exact ⟨le_rfl, Or.inr h⟩

theorem mem_natDigsCore {fuel n : Nat} {c : Char} (h : c ∈ natDigsCore fuel n) :
    ∃ d, d < 10 ∧ c = digitChar d := by
  induction fuel generalizing n with
  | zero => simp [natDigsCore] at h
  | succ fuel ih =>
    cases n with
    | zero => simp [natDigsCore] at h
    | succ k =>
      simp only [natDigsCore, List.mem_append, List.mem_singleton] at h
      rcases h with h1 | h2
      · exact ih h1
      · exact ⟨(k + 1) % 10, Nat.mod_lt _ (by norm_num), h2⟩

theorem mem_natDigs {n : Nat} {c : Char} (h : c ∈ natDigs n) :
    ∃ d, d < 10 ∧ c = digitChar d := by
  unfold natDigs at h
  split at h
  · refine ⟨0, by norm_num, ?_⟩
    simp only [List.mem_singleton] at h
    rw [h]; rfl
  · exact mem_natDigsCore h

theorem natDigs_concat {n : Nat} (h : n ≠ 0) :
    ∃ Q, natDigs n = Q ++ [digitChar (n % 10)] := by
  obtain ⟨k, rfl⟩ := Nat.exists_eq_succ_of_ne_zero h
  exact ⟨natDigsCore (k + 1) ((k + 1) / 10), by simp [natDigs, natDigsCore]⟩

theorem digitChar_bne_dot {d : Nat} (h : d < 10) : (digitChar d != '.') = true := by
  interval_cases d <;> decide

theorem digitChar_ne_dot {d : Nat} (h : d < 10) : digitChar d ≠ '.' := by
  interval_cases d <;> decide

theorem digitChar_ne_zero {d : Nat} (h1 : d < 10) (h2 : d ≠ 0) : digitChar d ≠ '0' := by
  interval_cases d
  · exact absurd rfl h2
  all_goals decide

theorem drop_concat_of_le {α : Type u} (l : List α) (x : α) :
    ∀ k, k ≤ l.length → (l ++ [x]).drop k = l.drop k ++ [x] := by
  induction l with
  | nil =>
    intro k hk
    have hk0 : k = 0 := Nat.le_zero.mp (by simpa using hk)
    subst hk0
    simp
  | cons a t ih =>
    intro k hk
    cases k with
    | zero => simp
    | succ k =>
      simp only [List.cons_append, List.drop_succ_cons]
      exact ih k (by simpa using hk)

theorem takeWhile_all_append {α : Type u} (p : α → Bool) (A B : List α)
    (h : ∀ a ∈ A, p a = true) :
    (A ++ B).takeWhile p = A ++ B.takeWhile p := by
  induction A with
  | nil => simp
  | cons a t ih =>
    simp only [List.cons_append, List.takeWhile_cons, h a (List.mem_cons_self a t), if_pos]
    rw [ih (fun b hb => h b (List.mem_cons_of_mem a hb))]

theorem natDigs_ne_nil (n : Nat) : natDigs n ≠ [] := by
  by_cases h : n = 0
  · subst h; simp [natDigs]
  · obtain ⟨Q, hQ⟩ := natDigs_concat h
    rw [hQ]; simp

theorem padOf_length (m : Int) (e : Nat) : e + 1 ≤ (padOf m e).length := by
  have hne := natDigs_ne_nil m.natAbs
  have hpos : 0 < (natDigs m.natAbs).length := List.length_pos.mpr hne
  simp only [padOf]
  split
  · simp only [List.length_append, List.length_replicate]
    omega
  · omega

theorem padOf_mem_digits {m : Int} {e : Nat} {c : Char} (h : c ∈ padOf m e) :
    ∃ d, d < 10 ∧ c = digitChar d := by
  simp only [padOf] at h
  split at h
  · rcases List.mem_append.mp h with h1 | h2
    · exact ⟨0, by norm_num, by rw [List.eq_of_mem_replicate h1]; rfl⟩
    · exact mem_natDigs h2
  · exact mem_natDigs h

theorem padOf_concat (m : Int) (e : Nat) (hm : m.natAbs ≠ 0) :
    ∃ Q, padOf m e = Q ++ [digitChar (m.natAbs % 10)] := by
  obtain ⟨Q, hQ⟩ := natDigs_concat hm
  simp only [padOf]
  rw [hQ]
  split
  · exact ⟨List.replicate (e + 1 - (Q ++ [digitChar (m.natAbs % 10)]).length) '0' ++ Q,
      (List.append_assoc _ _ _).symm⟩
  · exact ⟨Q, rfl⟩

theorem decRender_zero_data (m : Int) :
    (decRender m 0).data = (if m < 0 then ['-'] else []) ++ natDigs m.natAbs := rfl

theorem decRender_zero_spec (m : Int) :
    fracDigitCount (decRender m 0) = 0 ∧ ¬ trailingFracZero (decRender m 0) := by
  have hdot : '.' ∉ (decRender m 0).data := by
    rw [decRender_zero_data]
    intro h
    rcases List.mem_append.mp h with h1 | h2
    · split at h1 <;> simp_all
    · obtain ⟨d, hd, hc⟩ := mem_natDigs h2
      exact digitChar_ne_dot hd hc.symm
  constructor
  · simp [fracDigitCount, hdot]
  · intro hT
    exact hdot hT.1

theorem decRender_frac_spec (m : Int) (e : Nat) (he : e ≠ 0) (hm : m % 10 ≠ 0) :
    fracDigitCount (decRender m e) = e ∧ (decRender m e).data.getLastD ' ' ≠ '0' := by
  have hm0 : m ≠ 0 := by rintro rfl; exact hm (by decide)
  have hna0 : m.natAbs ≠ 0 := fun h => hm0 (Int.natAbs_eq_zero.mp h)
  have hnamod : m.natAbs % 10 ≠ 0 := by
    intro h0
    apply hm
    have h1 : (10 : Int).natAbs ∣ m.natAbs := by
      simpa using Nat.dvd_of_mod_eq_zero h0
    exact Int.emod_eq_zero_of_dvd (Int.natAbs_dvd_natAbs.mp h1)
  have hrlt : m.natAbs % 10 < 10 := Nat.mod_lt _ (by norm_num)
  obtain ⟨Q, hQ⟩ := padOf_concat m e hna0
  have hlen : e + 1 ≤ (padOf m e).length := padOf_length m e
  have hdata : (decRender m e).data =
      (if m < 0 then ['-'] else []) ++ (padOf m e).take ((padOf m e).length - e)
        ++ '.' :: (padOf m e).drop ((padOf m e).length - e) := by
    simp only [decRender]
    rw [if_neg he]
  set P := padOf m e with hP
  set k := P.length - e with hk
  have hQlen : P.length = Q.length + 1 := by rw [hQ]; simp
  have hkQ : k ≤ Q.length := by omega
  have hdrop : P.drop k = Q.drop k ++ [digitChar (m.natAbs % 10)] := by
    rw [hQ]
    exact drop_concat_of_le Q _ k hkQ
  have hlast : (decRender m e).data.getLastD ' ' = digitChar (m.natAbs % 10) := by
    rw [hdata, hdrop]
    rw [show (if m < 0 then ['-'] else []) ++ P.take k
          ++ '.' :: (Q.drop k ++ [digitChar (m.natAbs % 10)])
        = ((if m < 0 then ['-'] else []) ++ P.take k ++ '.' :: Q.drop k)
          ++ [digitChar (m.natAbs % 10)] by simp]
    exact List.getLastD_concat _ _ _
  have hfrac : fracDigitCount (decRender m e) = e := by
    have hdot : '.' ∈ (decRender m e).data := by
      rw [hdata]
      exact List.mem_append.mpr (Or.inr (List.mem_cons_self _ _))
    simp only [fracDigitCount, if_pos hdot]
    rw [hdata, List.reverse_append, List.reverse_cons, List.append_assoc,
      List.singleton_append]
    rw [takeWhile_all_append]
    · have ht : ∀ ls : List Char, List.takeWhile (fun c => c != '.') ('.' :: ls) = [] := by
        intro ls; simp
      rw [ht]
      simp only [List.append_nil, List.length_reverse, List.length_drop]
      omega
    · intro c hc
      have hcP : c ∈ P := (List.drop_subset k P) (List.mem_reverse.mp hc)
      obtain ⟨d, hd, rfl⟩ := padOf_mem_digits hcP
      exact digitChar_bne_dot hd
  exact ⟨hfrac, by rw [hlast]; exact digitChar_ne_zero hrlt hnamod⟩

theorem numToStr_spec (v : Dec) :
    fracDigitCount (numToStr v) ≤ 7 ∧ ¬ trailingFracZero (numToStr v) := by
  simp only [numToStr, rawToString]
  obtain ⟨hle, hdisj⟩ := normLoop_le_and_mod 7 (round7 v)
  by_cases h0 : (normLoop (round7 v) 7).2 = 0
  · rw [h0]
    obtain ⟨hc, hT⟩ := decRender_zero_spec (normLoop (round7 v) 7).1
    exact ⟨by omega, hT⟩
  · have hmod : (normLoop (round7 v) 7).1 % 10 ≠ 0 := hdisj.resolve_left h0
    obtain ⟨hc, hl⟩ := decRender_frac_spec _ _ h0 hmod
    refine ⟨by omega, ?_⟩
    intro hT
    exact hl hT.2

theorem midLines_split (sep nl : String) :
    ∀ l : List String, l ≠ [] → ∃ pre core,
      midLines sep "" l = pre ++ [core ++ "]"] ∧
      midLines sep nl l = pre ++ [core ++ "]" ++ nl] := by
  intro l
  induction l with
  | nil => intro h; exact absurd rfl h
  | cons x t ih =>
    intro _
    cases t with
    | nil =>
      refine ⟨[], " " ++ x, ?_, ?_⟩
      · simp [midLines, String.append_empty]
      · simp [midLines]
    | cons y t2 =>
      obtain ⟨pre, core, h1, h2⟩ := ih (by simp)
      exact ⟨(" " ++ x ++ sep) :: pre, core, by simp [midLines, h1], by simp [midLines, h2]⟩

theorem wrapLines_split (sep nl : String) (l : List String) :
    ∃ pre core,
      wrapLines sep "" l = pre ++ [core ++ "]"] ∧
      wrapLines sep nl l = pre ++ [core ++ "]" ++ nl] := by
  cases l with
  | nil =>
    refine ⟨[], " " ++ "[" ++ "undefined" ++ sep, ?_, ?_⟩
    · simp [wrapLines, String.append_empty]
    · simp [wrapLines]
  | cons a t =>
    cases t with
    | nil =>
      refine ⟨[], " " ++ "[" ++ a ++ sep, ?_, ?_⟩
      · simp [wrapLines, String.append_empty]
      · simp [wrapLines]
    | cons b t2 =>
      obtain ⟨pre, core, h1, h2⟩ := midLines_split sep nl (b :: t2) (by simp)
      exact ⟨("[" ++ a ++ sep) :: pre, core, by simp [wrapLines, h1], by simp [wrapLines, h2]⟩

/-! Theorems for the specification claims. -/

/-- C1: the claim says a rank-1 tensor with more than 20 logical elements
shows the first 3 and the last 3 logical elements around a single `...`.
For `complex64` this fails: the code slices the last values as
`vals.subarray(size - 6, size)`, using the logical element count `size`
as a buffer index although each complex element occupies two buffer
slots.  On shape `[22]` with buffer `0..43` (pairs `(0,1) .. (42,43)`)
the rendered line shows the pairs `(16,17), (18,19), (20,21)` — elements
8, 9 and 10 — instead of the last three elements
`(38,39), (40,41), (42,43)`. -/
theorem complex_truncation_shows_wrong_elements :
    subTensorToString ((List.range 44).map (fun i => (⟨(i : Int), 0⟩ : Dec))) [22] .complex64
        [] [0] true =
      ["[0 + 1j, 2 + 3j, 4 + 5j, ..., 16 + 17j, 18 + 19j, 20 + 21j]"] ∧
    subTensorToString ((List.range 44).map (fun i => (⟨(i : Int), 0⟩ : Dec))) [22] .complex64
        [] [0] true ≠
      ["[0 + 1j, 2 + 3j, 4 + 5j, ..., 38 + 39j, 40 + 41j, 42 + 43j]"] := by
  constructor
  · decide
  · decide

/-- C2 (counterexample): the value 12345678 passes through
`parseFloat((12345678).toFixed(7)).toString()` unchanged, so the value
renderer displays all 8 of its significant digits — `toFixed(7)` bounds
the digits after the decimal point, not the significant digits. -/
theorem valToString_eight_sig_digits :
    valToString (.real ⟨12345678, 0⟩) 0 = "12345678" ∧
    sigDigitsOfStr (valToString (.real ⟨12345678, 0⟩) 0) = 8 ∧
    ¬ sigDigitsOfStr (valToString (.real ⟨12345678, 0⟩) 0) ≤ 7 := by
  refine ⟨by decide, by decide, by decide⟩

/-- C2 (amended): for every finite numeric input and every pad width, the
value renderer rounds to at most 7 digits after the decimal point and
never prints a redundant trailing zero in a fractional part (`1.0`
renders as `"1"`); complex pairs apply the same renderer to both
components. -/
theorem valToString_seven_fraction_digits (v a b : Dec) (pad : Nat) :
    valToString (.real v) pad = rightPad (numToStr v) pad ∧
    valToString (.cplx a b) pad = rightPad (numToStr a ++ " + " ++ numToStr b ++ "j") pad ∧
    fracDigitCount (numToStr v) ≤ 7 ∧
    ¬ trailingFracZero (numToStr v) ∧
    valToString (.real ⟨10, 1⟩) 0 = "1" :=
  ⟨rfl, rfl, (numToStr_spec v).1, (numToStr_spec v).2, by decide⟩

/-- C3 (counterexample): a rank-2 tensor whose outermost dimension has
size 0 does not render as an empty bracket pair: no child lines are
collected, JavaScript reads `lines[0]` of the empty array as `undefined`,
and the output line is `" [undefined,]"`. -/
theorem empty_dim_rank2_malformed :
    tensorToString [] [0, 2] .float32 false = "Tensor\n     [undefined,]" ∧
    tensorToString [] [0, 2] .float32 false ≠ "Tensor\n    []" := by
  refine ⟨by decide, by decide⟩

/-- C3 (amended): a size-0 dimension rendered at rank 1 yields the empty
bracket pair `[]` with no elements and no ellipsis, for every dtype; at
rank 2 or more a size-0 outermost dimension instead produces the
malformed line `" [undefined,]"`. -/
theorem empty_dim_rank1_empty_brackets :
    (∀ (dtype : DType) (strides padPerCol : List Nat) (isLast : Bool),
       subTensorToString [] [0] dtype strides padPerCol isLast = ["[]"]) ∧
    subTensorToString [] [0, 2] .float32 [2] [0, 0] true = [" [undefined,]"] := by
  constructor
  · intro dtype strides padPerCol isLast
    cases dtype <;> rfl
  · decide

/-- C4 (counterexample): with `verbose = true` the output contains a
`"  values:"` line between the shape line and the value block, which the
claim's exhaustive list of lines does not admit. -/
theorem verbose_has_values_line :
    tensorToString [⟨5, 0⟩] [] .float32 true =
      "Tensor\n  dtype: float32\n  rank: 0\n  shape: []\n  values:\n    5" ∧
    tensorToString [⟨5, 0⟩] [] .float32 true ≠
      "Tensor\n  dtype: float32\n  rank: 0\n  shape: []\n    5" := by
  refine ⟨by decide, by decide⟩

/-- C4 (amended): the output is the header line `"Tensor"`; exactly when
verbose is true, lines for dtype, rank, shape and a `values:` label, each
prefixed with two spaces; then the value block with every line indented
by four spaces; all joined by single newlines and nothing else. -/
theorem tensorToString_line_structure (vals : List Dec) (shape : List Nat) (dtype : DType)
    (verbose : Bool) :
    tensorToString vals shape dtype verbose =
      joinSep "\n"
        (["Tensor"]
          ++ (if verbose then
                ["  dtype: " ++ dtypeToStr dtype,
                 "  rank: " ++ natStr shape.length,
                 "  shape: [" ++ joinSep "," (shape.map natStr) ++ "]",
                 "  values:"]
              else [])
          ++ [joinSep "\n"
                ((subTensorToString vals shape dtype (computeStrides shape)
                    (computeMaxSizePerColumn vals shape dtype (computeStrides shape)) true).map
                  (fun l => "    " ++ l))]) := by
  cases verbose <;> rfl

/-- C5: the claim says all values in the same innermost column of a rank
at least 2 tensor render to equal width.  For a `complex64` tensor of
shape `[2, 21]` the truncated row rendering reads its "last" values from
the wrong buffer slots (see C1), so the widths compared against the
per-column maxima belong to different columns: with buffer slot 57 equal
to 1000000 and every other slot 0, the two sibling rows render the value
at the same displayed column position with widths 12 and 6, and the two
row lines have different lengths. -/
theorem complex_matrix_misaligned_columns :
    subTensorToString c5buf [2, 21] .complex64 (computeStrides [2, 21])
        (computeMaxSizePerColumn c5buf [2, 21] .complex64 (computeStrides [2, 21])) true =
      ["[[0 + 0j, 0 + 0j, 0 + 0j, ..., 0 + 0j, 0 + 0j, 0 + 0j],",
       " [0 + 0j, 0 + 0j, 0 + 0j, ..., 1000000 + 0j, 0 + 0j, 0 + 0j]]"] ∧
    ¬ ("[[0 + 0j, 0 + 0j, 0 + 0j, ..., 0 + 0j, 0 + 0j, 0 + 0j],").length =
      (" [0 + 0j, 0 + 0j, 0 + 0j, ..., 1000000 + 0j, 0 + 0j, 0 + 0j]]").length := by
  refine ⟨by decide, by decide⟩

/-- C6 (counterexample): a rank-2 subtensor rendered as a non-last
sibling ends its final line with `]` followed by a comma and one newline
(`",\n"`), not by the bare comma the claim's "one newline per nesting
level beyond the second" (zero newlines at rank 2) prescribes. -/
theorem rank2_sibling_separator_newline :
    subTensorToString [⟨1, 0⟩, ⟨2, 0⟩, ⟨3, 0⟩, ⟨4, 0⟩] [2, 2] .float32 [2] [1, 1] false =
      ["[[1, 2],", " [3, 4]],\n"] ∧
    subTensorToString [⟨1, 0⟩, ⟨2, 0⟩, ⟨3, 0⟩, ⟨4, 0⟩] [2, 2] .float32 [2] [1, 1] false ≠
      ["[[1, 2],", " [3, 4]],"] := by
  refine ⟨by decide, by decide⟩

/-- C6 (amended): a subtensor of rank `r ≥ 2` rendered as a non-last
sibling ends its final line with `]` followed by a comma and `r - 1`
newlines (one newline, plus one extra per nesting level beyond the
second); as the last sibling the final line ends with `]` and nothing
else, all earlier lines being identical in the two cases. -/
theorem subTensor_sibling_separator (vals : List Dec) (size d : Nat) (restShape : List Nat)
    (dtype : DType) (strides padPerCol : List Nat) :
    ∃ pre core,
      subTensorToString vals (size :: d :: restShape) dtype strides padPerCol true =
        pre ++ [core ++ "]"] ∧
      subTensorToString vals (size :: d :: restShape) dtype strides padPerCol false =
        pre ++ [core ++ "]" ++ ("," ++ String.mk (List.replicate (restShape.length + 1) '\n'))] := by
  simp only [subTensorToString, newLineSep, if_true, if_false, Bool.false_eq_true, ite_true,
    ite_false]
  exact wrapLines_split _ _ _

/-- C7: a complex pair renders as `"re + imj"` with the imaginary sign
kept literally: `(3, -4)` gives `"3 + -4j"`, and the shape `[2]` complex
tensor with buffer `[1, 2, 3, 4]` renders as `"[1 + 2j, 3 + 4j]"`. -/
theorem complex_pair_rendering :
    (∀ (re im : Dec) (pad : Nat),
       valToString (.cplx re im) pad = rightPad (numToStr re ++ " + " ++ numToStr im ++ "j") pad) ∧
    valToString (.cplx ⟨3, 0⟩ ⟨-4, 0⟩) 0 = "3 + -4j" ∧
    subTensorToString [⟨1, 0⟩, ⟨2, 0⟩, ⟨3, 0⟩, ⟨4, 0⟩] [2] .complex64 (computeStrides [2])
        (computeMaxSizePerColumn [⟨1, 0⟩, ⟨2, 0⟩, ⟨3, 0⟩, ⟨4, 0⟩] [2] .complex64
          (computeStrides [2]))
        true = ["[1 + 2j, 3 + 4j]"] :=
  ⟨fun _ _ _ => rfl, by decide, by decide⟩

/-- C8: the shape `[2, 2]` tensor with buffer `[1, 2, 3, 4]` and a real
dtype renders non-verbosely as `"Tensor\n    [[1, 2],\n     [3, 4]]"`. -/
theorem render_2x2_matrix :
    tensorToString [⟨1, 0⟩, ⟨2, 0⟩, ⟨3, 0⟩, ⟨4, 0⟩] [2, 2] .float32 false =
      "Tensor\n    [[1, 2],\n     [3, 4]]" ∧
    tensorToString [⟨1, 0⟩, ⟨2, 0⟩, ⟨3, 0⟩, ⟨4, 0⟩] [2, 2] .int32 false =
      "Tensor\n    [[1, 2],\n     [3, 4]]" ∧
    tensorToString [⟨1, 0⟩, ⟨2, 0⟩, ⟨3, 0⟩, ⟨4, 0⟩] [2, 2] .bool false =
      "Tensor\n    [[1, 2],\n     [3, 4]]" := by
  refine ⟨by decide, by decide, by decide⟩

/-- C9: a rank-0 tensor of any non-complex dtype renders the raw
`toString` of its single buffer value, bypassing the 7-digit rounding of
`valToString`: the scalar 0.123456789 keeps all 9 digits, while the value
renderer would show `"0.1234568"`. -/
theorem scalar_skips_rounding :
    (∀ (vals : List Dec) (strides padPerCol : List Nat) (isLast : Bool),
       subTensorToString vals [] .float32 strides padPerCol isLast =
           [rawToString (vals.headD ⟨0, 0⟩)] ∧
       subTensorToString vals [] .int32 strides padPerCol isLast =
           [rawToString (vals.headD ⟨0, 0⟩)] ∧
       subTensorToString vals [] .bool strides padPerCol isLast =
           [rawToString (vals.headD ⟨0, 0⟩)]) ∧
    rawToString ⟨123456789, 9⟩ = "0.123456789" ∧
    numToStr ⟨123456789, 9⟩ = "0.1234568" ∧
    rawToString ⟨123456789, 9⟩ ≠ numToStr ⟨123456789, 9⟩ ∧
    tensorToString [⟨123456789, 9⟩] [] .float32 false = "Tensor" ++ "\n" ++ "    0.123456789" :=
  ⟨fun _ _ _ _ => ⟨rfl, rfl, rfl⟩, by decide, by decide, by decide, by decide⟩

/-- C10: the `"Tensor"` header and the four-space-indented value block
are the same for both verbosity settings; `verbose = true` only inserts
the dtype, rank, shape and `values:` metadata lines between them. -/
theorem verbose_only_inserts_metadata (vals : List Dec) (shape : List Nat) (dtype : DType) :
    ∃ valueBlock : String,
      tensorToString vals shape dtype false = joinSep "\n" ["Tensor", valueBlock] ∧
      tensorToString vals shape dtype true =
        joinSep "\n" ["Tensor",
                      "  dtype: " ++ dtypeToStr dtype,
                      "  rank: " ++ natStr shape.length,
                      "  shape: [" ++ joinSep "," (shape.map natStr) ++ "]",
                      "  values:",
                      valueBlock] := by
  exact ⟨joinSep "\n" ((subTensorToString vals shape dtype (computeStrides shape)
      (computeMaxSizePerColumn vals shape dtype (computeStrides shape)) true).map
      (fun l => "    " ++ l)), rfl, rfl⟩
